import Mathlib

/-!
Verification of the teloxide update-listener subsystem and the
`AddStickerToSet` request builder, as a shallow embedding in Lean.

The repository sources under verification are
`src/dispatching/update_listeners.rs` (the `UpdateListener` trait with its
default method bodies) and `src/requests/all/add_sticker_to_set.rs`
(the builder).  The polling engine, the update-stream adapter and the
stop-token implementation (`dispatching/update_listeners/polling.rs`,
`dispatching/stop_token.rs`) are declared by the trait module but their
bodies are not part of the sources, so they are modelled from the
specification (spec.md sections 3, 4.2, 4.3 and 8); every such definition
is marked `Modelled from the spec`.
-/

namespace Teloxide

/-! ## Request builder: `AddStickerToSet` -/

/-- Stand-in for the `Bot` reference held by every request value; the
builder only stores and copies it, so it is abstracted to a tagged value. -/
structure Bot where
  tag : Nat
deriving DecidableEq, Repr

/-- Stand-in for `types::InputFile` (a file path, an URL or a Telegram
file id); the builder only stores it, never inspects it. -/
inductive InputFile where
  | file (path : String)
  | url (u : String)
  | fileId (i : String)
deriving DecidableEq, Repr

/-- Stand-in for `types::MaskPosition`; the builder only stores it,
never inspects it, so it is abstracted to a tagged value. -/
structure MaskPosition where
  tag : Nat
deriving DecidableEq, Repr

/-- `AddStickerToSet` from `src/requests/all/add_sticker_to_set.rs`:
the payload of the `addStickerToSet` method.  `user_id` is an `i32` in
the source; the builder performs no arithmetic on it, so it is embedded
as `Int`. -/
structure AddStickerToSet where
  bot : Bot
  user_id : Int
  name : String
  png_sticker : InputFile
  emojis : String
  mask_position : Option MaskPosition
deriving DecidableEq, Repr

namespace AddStickerToSet

/-- `AddStickerToSet::new`: builds the request with `mask_position: None`
and every other field taken from the arguments (`name` and `emojis` pass
through `Into<String>`, embedded as already-converted `String`s). -/
def new (bot : Bot) (user_id : Int) (name : String)
    (png_sticker : InputFile) (emojis : String) : AddStickerToSet :=
  { bot := bot, user_id := user_id, name := name,
    png_sticker := png_sticker, emojis := emojis, mask_position := none }

/-- Builder setter `user_id` (named `set_user_id` here because the field
projection already takes the source name). -/
def set_user_id (s : AddStickerToSet) (val : Int) : AddStickerToSet :=
  { s with user_id := val }

/-- Builder setter `name`. -/
def set_name (s : AddStickerToSet) (val : String) : AddStickerToSet :=
  { s with name := val }

/-- Builder setter `png_sticker`. -/
def set_png_sticker (s : AddStickerToSet) (val : InputFile) : AddStickerToSet :=
  { s with png_sticker := val }

/-- Builder setter `emojis`. -/
def set_emojis (s : AddStickerToSet) (val : String) : AddStickerToSet :=
  { s with emojis := val }

/-- Builder setter `mask_position`: stores `Some val`. -/
def set_mask_position (s : AddStickerToSet) (val : MaskPosition) : AddStickerToSet :=
  { s with mask_position := some val }

end AddStickerToSet

/-! ## Listener contract: default method bodies of `UpdateListener` -/

/-- Stand-in for `types::AllowedUpdate` (the advisory event-type hint);
the default trait methods never inspect it. -/
inductive AllowedUpdate where
  | message
  | editedMessage
  | channelPost
  | editedChannelPost
  | inlineQuery
  | chosenInlineResult
  | callbackQuery
  | shippingQuery
  | preCheckoutQuery
  | poll
deriving DecidableEq, Repr

/-- A listener implementation over an internal state type `S`: the two
overridable methods of the `UpdateListener` trait are recorded as `none`
(not overridden, the trait default body applies) or `some f`
(overridden with body `f`). -/
structure ListenerImpl (S : Type) where
  state : S
  hintAllowedUpdatesOverride : Option (S → List AllowedUpdate → S) := none
  timeoutHintOverride : Option (S → Option Nat) := none

/-- `UpdateListener::timeout_hint` as dispatched on a `ListenerImpl`:
an override runs its own body; otherwise the trait's default body
(`fn timeout_hint(&self) -> Option<Duration> { None }`) runs. -/
def ListenerImpl.timeout_hint (u : ListenerImpl S) : Option Nat :=
  match u.timeoutHintOverride with
  | some f => f u.state
  | none => none

/-- `UpdateListener::hint_allowed_updates` as dispatched on a
`ListenerImpl`: an override may rewrite the state; otherwise the trait's
default body (`let _ = hint;`) runs, which discards the hint and leaves
the receiver untouched. -/
def ListenerImpl.hint_allowed_updates (u : ListenerImpl S)
    (hint : List AllowedUpdate) : ListenerImpl S :=
  match u.hintAllowedUpdatesOverride with
  | some f => { u with state := f u.state hint }
  | none => u

/-! ## Polling engine (spec-modelled)

The bodies of `polling()`, the stop token and the stream adapter are not
among the sources; the state machine below is modelled from spec.md
sections 3 ("Data model"), 4.2 ("Polling Engine — state machine") and
4.3 ("Update Stream Adapter"). -/

/-- Modelled from the spec: the result of one call to the Fetcher
collaborator (`fetch(cursor, ...) -> Result<Batch, FetchError>`, spec
section 6), with `FetchError` classified by the collaborator as
recoverable or fatal.  Events are carried by their integer id. -/
inductive FetchResult where
  | ok (batch : List Nat)
  | recoverable
  | fatal
deriving DecidableEq, Repr

/-- An item the adapter can deliver to the consumer: an event, or an
erroneous result (tagged with whether the failure was fatal). -/
inductive Item where
  | event (id : Nat)
  | err (isFatal : Bool)
deriving DecidableEq, Repr

/-- Observable outcome of one "produce next" transition of the engine:
an item is yielded, the round produced nothing yet (empty batch), or the
sequence has ended. -/
inductive StepOut where
  | yield (i : Item)
  | skip
  | ended
deriving DecidableEq, Repr

/-- Modelled from the spec: the polling engine's state (spec section 3).
`cursor = none` is the initial "unset" cursor; `buffer` is the pending
buffer of fetched-but-undelivered event ids; `stop` is the shared stop
flag (stop-requested); `done` marks the terminal fully-stopped state;
`failures` is the consecutive-failure backoff counter; `calls` counts
fetch calls issued so far, and `fetchLog` records the cursor passed to
each fetch call, in order. -/
structure Engine where
  cursor : Option Nat := none
  buffer : List Nat := []
  stop : Bool := false
  done : Bool := false
  failures : Nat := 0
  calls : Nat := 0
  fetchLog : List (Option Nat) := []
deriving DecidableEq, Repr

/-- The freshly created engine: unset cursor, empty buffer, running. -/
def Engine.init : Engine := {}

/-- Maximum event id in a batch (`max(event_id in batch)`). -/
def maxId (b : List Nat) : Nat := b.foldl max 0

/-- Modelled from the spec: triggering the stop token raises the shared
stop flag (transition running → stop-requested, spec section 3). -/
def triggerStop (s : Engine) : Engine := { s with stop := true }

/-- Modelled from the spec: one "produce next event" request from the
adapter, driving the transitions of spec section 4.2.  The fetcher is
scripted by call number (`f k` is what the k-th fetch call returns);
the engine passes its current cursor to every call, recorded in
`fetchLog`.  Draining pops the buffer front; an idle engine with stop
requested ends the sequence; otherwise a fetch is issued: a non-empty
batch advances the cursor to `maxId batch + 1`, yields the first event
and buffers the rest (resetting the failure counter); an empty batch is
no news and changes nothing else; a recoverable failure yields one error
item and bumps the failure counter, leaving the cursor untouched; a
fatal failure yields one error item and finishes the engine. -/
def step (f : Nat → FetchResult) (s : Engine) : StepOut × Engine :=
  if s.done then (.ended, s)
  else
    match s.buffer with
    | e :: rest => (.yield (.event e), { s with buffer := rest })
    | [] =>
      if s.stop then (.ended, { s with done := true })
      else
        let s1 : Engine :=
          { s with calls := s.calls + 1, fetchLog := s.fetchLog ++ [s.cursor] }
        match f s.calls with
        | .ok [] => (.skip, s1)
        | .ok (e :: es) =>
          (.yield (.event e),
           { s1 with cursor := some (maxId (e :: es) + 1),
                     buffer := es, failures := 0 })
        | .recoverable =>
          (.yield (.err false), { s1 with failures := s.failures + 1 })
        | .fatal =>
          (.yield (.err true), { s1 with done := true })

/-- Engine state after `n` adapter pulls. -/
def iter (f : Nat → FetchResult) (s : Engine) : Nat → Engine
  | 0 => s
  | n + 1 => iter f (step f s).2 n

/-- Observable outcomes of the first `n` adapter pulls, in order. -/
def trace (f : Nat → FetchResult) (s : Engine) : Nat → List StepOut
  | 0 => []
  | n + 1 => (step f s).1 :: trace f (step f s).2 n

/-- The event ids a trace delivers to the consumer, in order. -/
def deliveredEvents (t : List StepOut) : List Nat :=
  t.filterMap fun
    | .yield (.event e) => some e
    | _ => none

/-- A fetcher whose k-th call returns batch `bs k` and never fails. -/
def okFetcher (bs : Nat → List Nat) : Nat → FetchResult :=
  fun k => .ok (bs k)

/-- The concatenation of batches `a, a+1, ..., b-1` of the script `bs`:
what fetch calls `a` up to `b` (exclusive) return, joined in order. -/
def joinBatches (bs : Nat → List Nat) (a b : Nat) : List Nat :=
  ((List.range' a (b - a)).map bs).flatten

end Teloxide

namespace Teloxide

/-- C10: `AddStickerToSet::new` sets `mask_position` to `None` and every
other field to the corresponding argument. -/
theorem addStickerToSet_new_fields (bot : Bot) (user_id : Int) (name : String)
    (png_sticker : InputFile) (emojis : String) :
    (AddStickerToSet.new bot user_id name png_sticker emojis).bot = bot ∧
    (AddStickerToSet.new bot user_id name png_sticker emojis).user_id = user_id ∧
    (AddStickerToSet.new bot user_id name png_sticker emojis).name = name ∧
    (AddStickerToSet.new bot user_id name png_sticker emojis).png_sticker = png_sticker ∧
    (AddStickerToSet.new bot user_id name png_sticker emojis).emojis = emojis ∧
    (AddStickerToSet.new bot user_id name png_sticker emojis).mask_position = none :=
  ⟨rfl, rfl, rfl, rfl, rfl, rfl⟩

/-- C9: each builder setter of `AddStickerToSet` replaces exactly the
field it names (for `mask_position`, with `Some` of the given value) and
leaves every other field, the bot reference included, unchanged. -/
theorem addStickerToSet_setters_frame (s : AddStickerToSet) (u : Int)
    (nm : String) (p : InputFile) (e : String) (m : MaskPosition) :
    ((s.set_user_id u).bot = s.bot ∧ (s.set_user_id u).user_id = u ∧
     (s.set_user_id u).name = s.name ∧ (s.set_user_id u).png_sticker = s.png_sticker ∧
     (s.set_user_id u).emojis = s.emojis ∧ (s.set_user_id u).mask_position = s.mask_position) ∧
    ((s.set_name nm).bot = s.bot ∧ (s.set_name nm).user_id = s.user_id ∧
     (s.set_name nm).name = nm ∧ (s.set_name nm).png_sticker = s.png_sticker ∧
     (s.set_name nm).emojis = s.emojis ∧ (s.set_name nm).mask_position = s.mask_position) ∧
    ((s.set_png_sticker p).bot = s.bot ∧ (s.set_png_sticker p).user_id = s.user_id ∧
     (s.set_png_sticker p).name = s.name ∧ (s.set_png_sticker p).png_sticker = p ∧
     (s.set_png_sticker p).emojis = s.emojis ∧ (s.set_png_sticker p).mask_position = s.mask_position) ∧
    ((s.set_emojis e).bot = s.bot ∧ (s.set_emojis e).user_id = s.user_id ∧
     (s.set_emojis e).name = s.name ∧ (s.set_emojis e).png_sticker = s.png_sticker ∧
     (s.set_emojis e).emojis = e ∧ (s.set_emojis e).mask_position = s.mask_position) ∧
    ((s.set_mask_position m).bot = s.bot ∧ (s.set_mask_position m).user_id = s.user_id ∧
     (s.set_mask_position m).name = s.name ∧ (s.set_mask_position m).png_sticker = s.png_sticker ∧
     (s.set_mask_position m).emojis = s.emojis ∧ (s.set_mask_position m).mask_position = some m) :=
  ⟨⟨rfl, rfl, rfl, rfl, rfl, rfl⟩, ⟨rfl, rfl, rfl, rfl, rfl, rfl⟩,
   ⟨rfl, rfl, rfl, rfl, rfl, rfl⟩, ⟨rfl, rfl, rfl, rfl, rfl, rfl⟩,
   ⟨rfl, rfl, rfl, rfl, rfl, rfl⟩⟩

/-- C7: a listener that does not override `timeout_hint` answers with
the trait's default body, which returns `None` for every listener state. -/
theorem timeout_hint_default_none {S : Type} (u : ListenerImpl S)
    (h : u.timeoutHintOverride = none) :
    u.timeout_hint = none := by
  unfold ListenerImpl.timeout_hint
  rw [h]

/-- Witness for C7 at a concrete non-overriding listener. -/
theorem timeout_hint_default_none_witness :
    (ListenerImpl.mk (S := Nat) 7 none none).timeout_hint = none :=
  timeout_hint_default_none (ListenerImpl.mk 7 none none) rfl

/-- C8: a listener that does not override `hint_allowed_updates` is left
completely unchanged by it, whatever hint is passed in: the trait's
default body discards the hint. -/
theorem hint_allowed_updates_default_id {S : Type} (u : ListenerImpl S)
    (h : u.hintAllowedUpdatesOverride = none) (hint : List AllowedUpdate) :
    u.hint_allowed_updates hint = u := by
  unfold ListenerImpl.hint_allowed_updates
  rw [h]

/-- Witness for C8 at a concrete non-overriding listener and a concrete
hint. -/
theorem hint_allowed_updates_default_id_witness :
    (ListenerImpl.mk (S := Nat) 3 none none).hint_allowed_updates
      [AllowedUpdate.message, AllowedUpdate.poll]
      = ListenerImpl.mk 3 none none :=
  hint_allowed_updates_default_id (ListenerImpl.mk 3 none none) rfl
    [AllowedUpdate.message, AllowedUpdate.poll]

/-! ### Basic step lemmas -/

/-- The engine never clears the stop flag. -/
theorem step_stop_eq (f : Nat → FetchResult) (s : Engine) :
    (step f s).2.stop = s.stop := by
  obtain ⟨cur, buf, st, dn, fl, cl, lg⟩ := s
  cases dn <;> cases buf <;> cases st <;> simp [step]
  all_goals rcases hf : f cl with (_ | ⟨e, es⟩) | _ | _ <;> simp [hf]

/-- With the stop flag raised, a step never issues a fetch. -/
theorem step_calls_of_stop (f : Nat → FetchResult) (s : Engine)
    (h : s.stop = true) : (step f s).2.calls = s.calls := by
  obtain ⟨cur, buf, st, dn, fl, cl, lg⟩ := s
  cases h
  cases dn <;> cases buf <;> simp [step]

/-- A finished engine is frozen: every further step reports
end-of-sequence and changes nothing. -/
theorem iter_of_done (f : Nat → FetchResult) (s : Engine)
    (h : s.done = true) (n : Nat) :
    trace f s n = List.replicate n StepOut.ended ∧ iter f s n = s := by
  induction n with
  | zero => exact ⟨rfl, rfl⟩
  | succ n ih =>
    have hstep : step f s = (.ended, s) := by
      unfold step
      rw [h]
      simp
    refine ⟨?_, ?_⟩
    · show (step f s).1 :: trace f (step f s).2 n = _
      rw [hstep]
      simp [ih.1, List.replicate_succ]
    · show iter f (step f s).2 n = s
      rw [hstep]
      exact ih.2

/-- With the stop flag raised, no step ever issues a fetch: the call
counter is frozen for the rest of the engine's lifetime. -/
theorem iter_calls_of_stop (f : Nat → FetchResult) (n : Nat) :
    ∀ s : Engine, s.stop = true → (iter f s n).calls = s.calls := by
  induction n with
  | zero => intro s _; rfl
  | succ n ih =>
    intro s h
    show (iter f (step f s).2 n).calls = s.calls
    rw [ih (step f s).2 (by rw [step_stop_eq, h]), step_calls_of_stop f s h]

/-- C6: triggering the stop token twice is the same as triggering it
once — the engine state is identical, hence so is every observable trace
from it. -/
theorem trigger_stop_idempotent (s : Engine) (f : Nat → FetchResult) (n : Nat) :
    triggerStop (triggerStop s) = triggerStop s ∧
    trace f (triggerStop (triggerStop s)) n = trace f (triggerStop s) n :=
  ⟨rfl, rfl⟩

/-- Auxiliary induction for C3: a stop-requested, not-yet-done engine
first hands out its whole pending buffer, then ends. -/
theorem drain_aux (f : Nat → FetchResult) (l : List Nat) :
    ∀ s : Engine, s.stop = true → s.done = false → s.buffer = l →
      trace f s (l.length + 1)
        = l.map (fun e => StepOut.yield (Item.event e)) ++ [StepOut.ended] := by
  induction l with
  | nil =>
    intro s hst hdn hb
    have hstep : step f s = (.ended, { s with done := true }) := by
      unfold step
      rw [hdn, hb, hst]
      simp
    show (step f s).1 :: trace f (step f s).2 0 = _
    rw [hstep]
    simp [trace]
  | cons e rest ih =>
    intro s hst hdn hb
    have hstep : step f s = (.yield (.event e), { s with buffer := rest }) := by
      unfold step
      rw [hdn, hb]
      simp
    show (step f s).1 :: trace f (step f s).2 (rest.length + 1) = _
    rw [hstep, ih { s with buffer := rest } hst hdn rfl]
    simp

/-- C3: if stop is requested while the pending buffer holds events, the
stream still yields exactly those events, in order, before ending; a
stop-requested engine (an idle one included, `buffer = []`, where the
trace is just `[ended]`) never starts another fetch. -/
theorem stop_drains_buffer_then_ends (f : Nat → FetchResult) (s : Engine)
    (hst : s.stop = true) (hdn : s.done = false) :
    trace f s (s.buffer.length + 1)
      = s.buffer.map (fun e => StepOut.yield (Item.event e)) ++ [StepOut.ended] ∧
    ∀ n, (iter f s n).calls = s.calls :=
  ⟨drain_aux f s.buffer s hst hdn rfl, fun n => iter_calls_of_stop f n s hst⟩

/-- Witness for C3: a stopped engine holding two buffered events yields
them and ends, fetching nothing, even against a fetcher that would
fail fatally. -/
theorem stop_drains_buffer_then_ends_witness :
    trace (fun _ => FetchResult.fatal)
        { buffer := [4, 9], stop := true, calls := 2 } (2 + 1)
      = [StepOut.yield (Item.event 4), StepOut.yield (Item.event 9), StepOut.ended] ∧
    ∀ n, (iter (fun _ => FetchResult.fatal)
        { buffer := [4, 9], stop := true, calls := 2 } n).calls = 2 := by
  have h := stop_drains_buffer_then_ends (fun _ => FetchResult.fatal)
    { buffer := [4, 9], stop := true, calls := 2 } rfl rfl
  simpa using h

/-- C4: an idle, running engine whose fetch fails fatally delivers
exactly one error item and then end-of-sequence forever; the fetcher is
never called again (the call counter stays one past its old value). -/
theorem fatal_error_ends_stream (f : Nat → FetchResult) (s : Engine) (n : Nat)
    (hb : s.buffer = []) (hst : s.stop = false) (hdn : s.done = false)
    (hf : f s.calls = FetchResult.fatal) :
    trace f s (n + 1)
      = StepOut.yield (Item.err true) :: List.replicate n StepOut.ended ∧
    (iter f s (n + 1)).calls = s.calls + 1 := by
  have hstep : step f s
      = (.yield (.err true),
         { s with calls := s.calls + 1, fetchLog := s.fetchLog ++ [s.cursor],
                  done := true }) := by
    unfold step
    rw [hdn, hb, hst, hf]
    simp
  have hdone := iter_of_done f
    { s with calls := s.calls + 1, fetchLog := s.fetchLog ++ [s.cursor],
             done := true } rfl n
  constructor
  · show (step f s).1 :: trace f (step f s).2 n = _
    rw [hstep, hdone.1]
  · show (iter f (step f s).2 n).calls = s.calls + 1
    rw [hstep, hdone.2]

/-- Witness for C4 at a concrete engine and fetcher. -/
theorem fatal_error_ends_stream_witness :
    trace (fun _ => FetchResult.fatal) Engine.init (2 + 1)
      = StepOut.yield (Item.err true)
          :: List.replicate 2 StepOut.ended ∧
    (iter (fun _ => FetchResult.fatal) Engine.init (2 + 1)).calls
      = Engine.init.calls + 1 :=
  fatal_error_ends_stream (fun _ => FetchResult.fatal) Engine.init 2
    rfl rfl rfl rfl

/-- C5: against a fetcher that always answers with an empty batch, an
idle running engine yields nothing — no event, no error — never ends,
and its failure/backoff counter is untouched, for any number of pulls. -/
theorem empty_batches_yield_nothing (f : Nat → FetchResult)
    (hf : ∀ k, f k = FetchResult.ok []) (n : Nat) :
    ∀ s : Engine, s.buffer = [] → s.stop = false → s.done = false →
      trace f s n = List.replicate n StepOut.skip ∧
      (∀ i, StepOut.yield i ∉ trace f s n) ∧
      StepOut.ended ∉ trace f s n ∧
      (iter f s n).failures = s.failures := by
  induction n with
  | zero => intro s _ _ _; simp [trace, iter]
  | succ n ih =>
    intro s hb hst hdn
    have hstep : step f s
        = (.skip, { s with calls := s.calls + 1,
                           fetchLog := s.fetchLog ++ [s.cursor] }) := by
      unfold step
      rw [hdn, hb, hst, hf s.calls]
      simp
    have ih2 := ih { s with calls := s.calls + 1,
                            fetchLog := s.fetchLog ++ [s.cursor] } hb hst hdn
    have h1 : trace f s (n + 1) = StepOut.skip :: List.replicate n StepOut.skip := by
      show (step f s).1 :: trace f (step f s).2 n = _
      rw [hstep, ih2.1]
    refine ⟨by simpa [List.replicate_succ] using h1, ?_, ?_, ?_⟩
    · intro i hi
      rw [h1] at hi
      simp at hi
    · intro hi
      rw [h1] at hi
      simp at hi
    · show (iter f (step f s).2 n).failures = s.failures
      rw [hstep]
      exact ih2.2.2.2

/-- Witness for C5: five pulls against the always-empty fetcher from the
fresh engine. -/
theorem empty_batches_yield_nothing_witness :
    trace (fun _ => FetchResult.ok []) Engine.init 5
        = List.replicate 5 StepOut.skip ∧
    (∀ i, StepOut.yield i ∉ trace (fun _ => FetchResult.ok []) Engine.init 5) ∧
    StepOut.ended ∉ trace (fun _ => FetchResult.ok []) Engine.init 5 ∧
    (iter (fun _ => FetchResult.ok []) Engine.init 5).failures
        = Engine.init.failures :=
  empty_batches_yield_nothing (fun _ => FetchResult.ok []) (fun _ => rfl) 5
    Engine.init rfl rfl rfl

/-! ### Ordering of delivered events (C1) -/

/-- Joining no batches gives the empty list. -/
theorem joinBatches_self (bs : Nat → List Nat) (a : Nat) :
    joinBatches bs a a = [] := by
  simp [joinBatches]

/-- Peeling the first batch off a non-empty range of batches. -/
theorem joinBatches_cons (bs : Nat → List Nat) (a b : Nat) (h : a < b) :
    joinBatches bs a b = bs a ++ joinBatches bs (a + 1) b := by
  unfold joinBatches
  have hb : b - a = (b - (a + 1)) + 1 := by omega
  rw [hb, List.range'_succ]
  simp

/-- A shorter range of batches joins to a prefix of a longer one. -/
theorem joinBatches_mono (bs : Nat → List Nat) (a b c : Nat)
    (hab : a ≤ b) (hbc : b ≤ c) :
    joinBatches bs a b <+: joinBatches bs a c := by
  unfold joinBatches
  refine ⟨((List.range' (a + (b - a)) (c - b)).map bs).flatten, ?_⟩
  rw [← List.flatten_append, ← List.map_append]
  have happ := List.range'_append a (b - a) (c - b) 1
  simp only [one_mul] at happ
  rw [happ]
  have hcb : (c - b) + (b - a) = c - a := by omega
  rw [hcb]

/-- One step moves the call counter up by at most one, never down. -/
theorem step_calls_bounds (f : Nat → FetchResult) (s : Engine) :
    s.calls ≤ (step f s).2.calls ∧ (step f s).2.calls ≤ s.calls + 1 := by
  obtain ⟨cur, buf, st, dn, fl, cl, lg⟩ := s
  cases dn <;> cases buf <;> cases st <;> simp [step]
  all_goals rcases hf : f cl with (_ | ⟨e, es⟩) | _ | _ <;> simp [hf]

/-- The call counter never decreases across pulls. -/
theorem iter_calls_mono (f : Nat → FetchResult) (n : Nat) :
    ∀ s : Engine, s.calls ≤ (iter f s n).calls := by
  induction n with
  | zero => intro s; exact le_refl _
  | succ n ih =>
    intro s
    exact le_trans (step_calls_bounds f s).1 (ih (step f s).2)

/-- At most one fetch call is issued per pull. -/
theorem iter_calls_le (f : Nat → FetchResult) (n : Nat) :
    ∀ s : Engine, (iter f s n).calls ≤ s.calls + n := by
  induction n with
  | zero => intro s; simp [iter]
  | succ n ih =>
    intro s
    have h1 : (iter f (step f s).2 n).calls ≤ (step f s).2.calls + n := ih _
    have h2 := (step_calls_bounds f s).2
    show (iter f (step f s).2 n).calls ≤ s.calls + (n + 1)
    omega

/-- Conservation invariant behind C1: against a never-failing scripted
fetcher, the events delivered so far followed by the still-buffered ones
are exactly the initial buffer followed by the join, in fetch order, of
every batch fetched meanwhile — nothing lost, nothing duplicated,
nothing reordered, and batch N is fully consumed before batch N+1. -/
theorem ok_invariant (bs : Nat → List Nat) (n : Nat) :
    ∀ s : Engine,
      deliveredEvents (trace (okFetcher bs) s n)
          ++ (iter (okFetcher bs) s n).buffer
        = s.buffer
          ++ joinBatches bs s.calls (iter (okFetcher bs) s n).calls := by
  induction n with
  | zero =>
    intro s
    simp [trace, iter, deliveredEvents, joinBatches_self]
  | succ n ih =>
    intro s
    show deliveredEvents ((step (okFetcher bs) s).1
            :: trace (okFetcher bs) (step (okFetcher bs) s).2 n)
          ++ (iter (okFetcher bs) (step (okFetcher bs) s).2 n).buffer
        = s.buffer ++ joinBatches bs s.calls
            (iter (okFetcher bs) (step (okFetcher bs) s).2 n).calls
    cases hd : s.done with
    | true =>
      have hstep : step (okFetcher bs) s = (.ended, s) := by
        unfold step
        rw [hd]
        simp
      rw [hstep]
      simpa [deliveredEvents] using ih s
    | false =>
      cases hb : s.buffer with
      | cons e rest =>
        have hstep : step (okFetcher bs) s
            = (.yield (.event e), { s with buffer := rest }) := by
          unfold step
          rw [hd, hb]
          simp
        rw [hstep]
        dsimp only
        have := ih { s with buffer := rest }
        simpa [deliveredEvents] using this
      | nil =>
        cases hst : s.stop with
        | true =>
          have hstep : step (okFetcher bs) s
              = (.ended, { s with done := true }) := by
            unfold step
            rw [hd, hb, hst]
            simp
          rw [hstep]
          dsimp only
          have := ih { s with done := true }
          simpa [deliveredEvents, hb] using this
        | false =>
          cases hbs : bs s.calls with
          | nil =>
            have hstep : step (okFetcher bs) s
                = (.skip, { s with calls := s.calls + 1,
                                   fetchLog := s.fetchLog ++ [s.cursor] }) := by
              unfold step
              rw [hd, hb, hst]
              simp [okFetcher, hbs]
            rw [hstep]
            dsimp only
            have hih := ih { s with calls := s.calls + 1,
                                    fetchLog := s.fetchLog ++ [s.cursor] }
            have hlt : s.calls
                < (iter (okFetcher bs)
                    { s with calls := s.calls + 1,
                             fetchLog := s.fetchLog ++ [s.cursor] } n).calls := by
              have := iter_calls_mono (okFetcher bs) n
                { s with calls := s.calls + 1,
                         fetchLog := s.fetchLog ++ [s.cursor] }
              simp at this
              omega
            rw [joinBatches_cons bs _ _ hlt, hbs]
            simpa [deliveredEvents, hb] using hih
          | cons e es =>
            have hstep : step (okFetcher bs) s
                = (.yield (.event e),
                   { s with cursor := some (maxId (e :: es) + 1),
                            buffer := es, failures := 0,
                            calls := s.calls + 1,
                            fetchLog := s.fetchLog ++ [s.cursor] }) := by
              unfold step
              rw [hd, hb, hst]
              simp [okFetcher, hbs]
            rw [hstep]
            dsimp only
            have hih := ih { s with cursor := some (maxId (e :: es) + 1),
                                    buffer := es, failures := 0,
                                    calls := s.calls + 1,
                                    fetchLog := s.fetchLog ++ [s.cursor] }
            have hlt : s.calls
                < (iter (okFetcher bs)
                    { s with cursor := some (maxId (e :: es) + 1),
                             buffer := es, failures := 0,
                             calls := s.calls + 1,
                             fetchLog := s.fetchLog ++ [s.cursor] } n).calls := by
              have := iter_calls_mono (okFetcher bs) n
                { s with cursor := some (maxId (e :: es) + 1),
                         buffer := es, failures := 0,
                         calls := s.calls + 1,
                         fetchLog := s.fetchLog ++ [s.cursor] }
              simp at this
              omega
            rw [joinBatches_cons bs _ _ hlt, hbs]
            simpa [deliveredEvents, hb] using hih

/-- C1: against a fetcher scripted with batches `bs 0, bs 1, ...` whose
overall concatenation is strictly ascending in id (the remote batch
contract: each batch ascending, batches disjoint and in fetch order),
the events the adapter delivers from a fresh engine are a prefix of that
concatenation — strictly ascending ids, no duplicates, no gaps relative
to what was fetched — and together with the still-pending buffer they
are exactly the fetched batches joined in fetch order. -/
theorem delivered_events_ordered (bs : Nat → List Nat) (n : Nat)
    (hs : List.Sorted (· < ·) (joinBatches bs 0 n)) :
    deliveredEvents (trace (okFetcher bs) Engine.init n)
        ++ (iter (okFetcher bs) Engine.init n).buffer
      = joinBatches bs 0 (iter (okFetcher bs) Engine.init n).calls ∧
    deliveredEvents (trace (okFetcher bs) Engine.init n) <+: joinBatches bs 0 n ∧
    List.Sorted (· < ·) (deliveredEvents (trace (okFetcher bs) Engine.init n)) := by
  have hinv := ok_invariant bs n Engine.init
  have hinv2 : deliveredEvents (trace (okFetcher bs) Engine.init n)
      ++ (iter (okFetcher bs) Engine.init n).buffer
      = joinBatches bs 0 (iter (okFetcher bs) Engine.init n).calls := by
    simpa [Engine.init] using hinv
  have hcle : (iter (okFetcher bs) Engine.init n).calls ≤ n := by
    have := iter_calls_le (okFetcher bs) n Engine.init
    simpa [Engine.init] using this
  have hpre1 : deliveredEvents (trace (okFetcher bs) Engine.init n)
      <+: joinBatches bs 0 (iter (okFetcher bs) Engine.init n).calls :=
    ⟨(iter (okFetcher bs) Engine.init n).buffer, hinv2⟩
  have hpre : deliveredEvents (trace (okFetcher bs) Engine.init n)
      <+: joinBatches bs 0 n :=
    hpre1.trans (joinBatches_mono bs 0 _ n (Nat.zero_le _) hcle)
  exact ⟨hinv2, hpre, List.Pairwise.sublist hpre.sublist hs⟩

/-- Witness for C1: three pulls against the script of consecutive pairs
`[0, 1], [2, 3], [4, 5]`, whose join is strictly ascending. -/
theorem delivered_events_ordered_witness :
    deliveredEvents (trace (okFetcher fun k => [2 * k, 2 * k + 1]) Engine.init 3)
        ++ (iter (okFetcher fun k => [2 * k, 2 * k + 1]) Engine.init 3).buffer
      = joinBatches (fun k => [2 * k, 2 * k + 1]) 0
          (iter (okFetcher fun k => [2 * k, 2 * k + 1]) Engine.init 3).calls ∧
    deliveredEvents (trace (okFetcher fun k => [2 * k, 2 * k + 1]) Engine.init 3)
      <+: joinBatches (fun k => [2 * k, 2 * k + 1]) 0 3 ∧
    List.Sorted (· < ·)
      (deliveredEvents (trace (okFetcher fun k => [2 * k, 2 * k + 1]) Engine.init 3)) :=
  delivered_events_ordered (fun k => [2 * k, 2 * k + 1]) 3 (by decide)

/-! ### Cursor policy (C2) -/

/-- Pulling the left operand of `max` out of a `foldl max`. -/
theorem foldl_max_out (l : List Nat) :
    ∀ a b : Nat, l.foldl max (max a b) = max a (l.foldl max b) := by
  induction l with
  | nil => intro a b; rfl
  | cons c l ih =>
    intro a b
    show l.foldl max (max (max a b) c) = max a (l.foldl max (max b c))
    rw [max_assoc, ih]

/-- `maxId` of a non-empty batch, recursively. -/
theorem maxId_cons (e : Nat) (es : List Nat) :
    maxId (e :: es) = max e (maxId es) := by
  show es.foldl max (max 0 e) = max e (es.foldl max 0)
  rw [max_comm 0 e]
  exact foldl_max_out es e 0

/-- Every event id in a batch is bounded by the batch's `maxId`. -/
theorem le_maxId (b : List Nat) : ∀ x ∈ b, x ≤ maxId b := by
  induction b with
  | nil => intro x hx; cases hx
  | cons e es ih =>
    intro x hx
    rw [maxId_cons]
    rcases List.mem_cons.mp hx with h | h
    · exact h ▸ le_max_left _ _
    · exact le_trans (ih x h) (le_max_right _ _)

/-- An idle running engine always issues a fetch, and passes its current
cursor to it. -/
theorem step_fetchLog_of_idle (f : Nat → FetchResult) (s : Engine)
    (hd : s.done = false) (hb : s.buffer = []) (hst : s.stop = false) :
    (step f s).2.fetchLog = s.fetchLog ++ [s.cursor] := by
  unfold step
  rw [hd, hb, hst]
  rcases hf : f s.calls with (_ | ⟨e, es⟩) | _ | _ <;> simp [hf]

/-- C2: cursor policy of one engine step, for any fetcher honouring the
remote contract at the current call (events at or past the requested
cursor).  (i) The cursor never decreases; (ii) it changes only on a
successful non-empty fetch, and then to exactly one past the batch's
maximum event id; (iii) a recoverable fetch failure leaves the cursor
unchanged, and the fetch call after the failed one is issued with the
identical cursor the failed call used. -/
theorem cursor_advance_policy (f : Nat → FetchResult) (s : Engine)
    (hc : match f s.calls, s.cursor with
          | FetchResult.ok b, some c => ∀ e ∈ b, c ≤ e
          | _, _ => True) :
    (∀ c, s.cursor = some c → ∃ d, (step f s).2.cursor = some d ∧ c ≤ d) ∧
    ((step f s).2.cursor ≠ s.cursor →
       s.buffer = [] ∧ s.stop = false ∧ s.done = false ∧
       ∃ b, b ≠ [] ∧ f s.calls = FetchResult.ok b ∧
         (step f s).2.cursor = some (maxId b + 1)) ∧
    (∀ s', step f s = (StepOut.yield (Item.err false), s') →
       s'.cursor = s.cursor ∧ s'.fetchLog = s.fetchLog ++ [s.cursor] ∧
       (step f s').2.fetchLog = s'.fetchLog ++ [s.cursor]) := by
  cases hd : s.done with
  | true =>
    have hstep : step f s = (.ended, s) := by
      unfold step
      rw [hd]
      simp
    rw [hstep]
    exact ⟨fun c h => ⟨c, h, le_refl c⟩, fun hne => absurd rfl hne,
           fun s' h => by simp at h⟩
  | false =>
    cases hb : s.buffer with
    | cons e rest =>
      have hstep : step f s = (.yield (.event e), { s with buffer := rest }) := by
        unfold step
        rw [hd, hb]
        simp
      rw [hstep]
      exact ⟨fun c h => ⟨c, h, le_refl c⟩, fun hne => absurd rfl hne,
             fun s' h => by simp at h⟩
    | nil =>
      cases hst : s.stop with
      | true =>
        have hstep : step f s = (.ended, { s with done := true }) := by
          unfold step
          rw [hd, hb, hst]
          simp
        rw [hstep]
        exact ⟨fun c h => ⟨c, h, le_refl c⟩, fun hne => absurd rfl hne,
               fun s' h => by simp at h⟩
      | false =>
        rcases hf : f s.calls with (_ | ⟨e, es⟩) | _ | _
        · have hstep : step f s
              = (.skip, { s with calls := s.calls + 1,
                                 fetchLog := s.fetchLog ++ [s.cursor] }) := by
            unfold step
            rw [hd, hb, hst]
            simp [hf]
          rw [hstep]
          exact ⟨fun c h => ⟨c, h, le_refl c⟩, fun hne => absurd rfl hne,
                 fun s' h => by simp at h⟩
        · have hstep : step f s
              = (.yield (.event e),
                 { s with cursor := some (maxId (e :: es) + 1),
                          buffer := es, failures := 0,
                          calls := s.calls + 1,
                          fetchLog := s.fetchLog ++ [s.cursor] }) := by
            unfold step
            rw [hd, hb, hst]
            simp [hf]
          rw [hstep]
          refine ⟨?_, ?_, fun s' h => by simp at h⟩
          · intro c h
            have hc2 : ∀ x ∈ e :: es, c ≤ x := by
              rw [hf, h] at hc
              exact hc
            refine ⟨maxId (e :: es) + 1, rfl, ?_⟩
            have h1 := hc2 e (List.mem_cons_self e es)
            have h2 := le_maxId (e :: es) e (List.mem_cons_self e es)
            omega
          · intro _
            exact ⟨rfl, rfl, rfl, e :: es, List.cons_ne_nil e es, rfl, rfl⟩
        · have hstep : step f s
              = (.yield (.err false),
                 { s with failures := s.failures + 1,
                          calls := s.calls + 1,
                          fetchLog := s.fetchLog ++ [s.cursor] }) := by
            unfold step
            rw [hd, hb, hst]
            simp [hf]
          rw [hstep]
          refine ⟨fun c h => ⟨c, h, le_refl c⟩, fun hne => absurd rfl hne,
                  fun s' h => ?_⟩
          have h2 : ({ s with failures := s.failures + 1,
                              calls := s.calls + 1,
                              fetchLog := s.fetchLog ++ [s.cursor] } : Engine)
              = s' := by
            injection h
          subst h2
          exact ⟨rfl, rfl, step_fetchLog_of_idle f _ hd hb hst⟩
        · have hstep : step f s
              = (.yield (.err true),
                 { s with done := true,
                          calls := s.calls + 1,
                          fetchLog := s.fetchLog ++ [s.cursor] }) := by
            unfold step
            rw [hd, hb, hst]
            simp [hf]
          rw [hstep]
          exact ⟨fun c h => ⟨c, h, le_refl c⟩, fun hne => absurd rfl hne,
                 fun s' h => by simp at h⟩

/-- Witness for C2 at the fresh engine against an always-failing
(recoverably) fetcher. -/
theorem cursor_advance_policy_witness :
    (∀ c, Engine.init.cursor = some c →
       ∃ d, (step (fun _ => FetchResult.recoverable) Engine.init).2.cursor
              = some d ∧ c ≤ d) ∧
    ((step (fun _ => FetchResult.recoverable) Engine.init).2.cursor
        ≠ Engine.init.cursor →
       Engine.init.buffer = [] ∧ Engine.init.stop = false ∧
       Engine.init.done = false ∧
       ∃ b, b ≠ [] ∧
         (fun _ => FetchResult.recoverable) Engine.init.calls
           = FetchResult.ok b ∧
         (step (fun _ => FetchResult.recoverable) Engine.init).2.cursor
           = some (maxId b + 1)) ∧
    (∀ s', step (fun _ => FetchResult.recoverable) Engine.init
        = (StepOut.yield (Item.err false), s') →
       s'.cursor = Engine.init.cursor ∧
       s'.fetchLog = Engine.init.fetchLog ++ [Engine.init.cursor] ∧
       (step (fun _ => FetchResult.recoverable) s').2.fetchLog
         = s'.fetchLog ++ [Engine.init.cursor]) :=
  cursor_advance_policy (fun _ => FetchResult.recoverable) Engine.init trivial

end Teloxide
